import Mathlib

/-!
Verification of the RAG chunking core of `rag_processor.py` (with the
`gk8_rag_processor.py` variant where noted), as a shallow embedding.

Modelling conventions:
* Text is `List Char` (Python `str`).  String literals are written as
  `"...".data`.  Python's `str.split('```')`, `str.split('\n\n')`,
  `str.split()`, `str.strip()`, `str.startswith` and the substring test
  `in` are re-implemented below by structural recursion so that every
  definition evaluates inside the kernel.  Whitespace is the ASCII set
  (space, tab, newline, carriage return, vertical tab, form feed); this
  matches Python on all inputs appearing in this development.
* Machine integers are `Nat`: every quantity involved (lengths, token
  counts, the four size constants) is non-negative in the source.
* The token estimator is a parameter `tok : Text → Nat`, reflecting the
  caller-supplied estimation function of the specification (&#167;6); the
  shipped fallback estimator `int(len(text)/3.75)` is `estimate_tokens`
  below (`1/3.75 = 4/15` exactly, and for all realistic lengths the
  float computation agrees with exact rational arithmetic).  The
  tiktoken path is an external library and is not modelled.
* The four size constants are a `Config` record, reflecting the
  specification's caller-supplied configuration surface.
-/

namespace Rag

/-- Python `str` contents. -/
abbrev Text := List Char

/-- Coerce a Lean string literal to `Text`. -/
def txt (s : String) : Text := s.data

/-- ASCII whitespace, as used by Python `str.strip()` / `str.split()`. -/
def isSpaceChar (c : Char) : Bool :=
  c = ' ' ∨ c = '\t' ∨ c = '\n' ∨ c = '\r' ∨ c = '\x0b' ∨ c = '\x0c'

/-- Drop the leading whitespace of a text. -/
def dropWhileWS : Text → Text
  | [] => []
  | c :: rest => if isSpaceChar c then dropWhileWS rest else c :: rest

/-- Python `str.strip()`: drop leading and trailing whitespace. -/
def stripWS (t : Text) : Text :=
  (dropWhileWS ((dropWhileWS t).reverse)).reverse

/-- Prepend a character to the first piece of a split result. -/
def consHead (c : Char) : List Text → List Text
  | [] => [[c]]
  | h :: t => (c :: h) :: t

/-- The backquote character. -/
def tickChar : Char := Char.ofNat 96

/-- The fenced-code-block marker `"` ++ "``" ++ "`"`. -/
def fenceT : Text := [tickChar, tickChar, tickChar]

/-- Python `content.split('```')`: split on each non-overlapping
occurrence of the three-backquote marker, scanning left to right. -/
def splitTicks : Text → List Text
  | [] => [[]]
  | a :: b :: c :: rest =>
    if a = tickChar ∧ b = tickChar ∧ c = tickChar then [] :: splitTicks rest
    else consHead a (splitTicks (b :: c :: rest))
  | a :: rest => consHead a (splitTicks rest)

/-- Python `content.count('```')` (non-overlapping occurrences). -/
def tickCount (t : Text) : Nat := (splitTicks t).length - 1

/-- Python substring test `sub in t`. -/
def containsSub (sub : Text) : Text → Bool
  | [] => sub.isEmpty
  | c :: rest => sub.isPrefixOf (c :: rest) || containsSub sub rest

/-- Python `'```' in content`. -/
def hasTicks (t : Text) : Bool := containsSub fenceT t

/-- Python `content.split('\n\n')` (paragraph boundaries), scanning
left to right for non-overlapping occurrences of the blank line. -/
def splitParas : Text → List Text
  | [] => [[]]
  | a :: b :: rest =>
    if a = '\n' ∧ b = '\n' then [] :: splitParas rest
    else consHead a (splitParas (b :: rest))
  | a :: rest => consHead a (splitParas rest)

/-- Helper of `wordsOf`: accumulate the current (reversed) word. -/
def wordsAux (cur : Text) : Text → List Text
  | [] => if cur.isEmpty then [] else [cur.reverse]
  | c :: rest =>
    if isSpaceChar c then
      if cur.isEmpty then wordsAux [] rest else cur.reverse :: wordsAux [] rest
    else wordsAux (c :: cur) rest

/-- Python `content.split()`: whitespace-delimited words, empty pieces
dropped. -/
def wordsOf (t : Text) : List Text := wordsAux [] t

/-- Python `' '.join(words)`. -/
def joinSp : List Text → Text
  | [] => []
  | [w] => w
  | w :: rest => w ++ ' ' :: joinSp rest

/-- Decimal digits of a `Nat`, for the f-string reason messages. -/
def natText (n : Nat) : Text := (Nat.repr n).data

/-- `RagProcessor.estimate_tokens`, fallback path:
`int(len(text)/3.75)`, i.e. `len * 4 / 15` exactly. -/
def estimate_tokens (t : Text) : Nat := t.length * 4 / 15

/-- `GK8RagProcessor.estimate_tokens`: `len(text) // 4`. -/
def gk8_estimate_tokens (t : Text) : Nat := t.length / 4

/-- A section record as produced by `extract_sections`
(`{'level': .., 'title': .., 'content': ..}`; the `element` field is a
DOM handle and plays no role in chunking). -/
structure Section where
  level : Nat
  title : Text
  content : Text
deriving DecidableEq, Repr

/-- A chunk candidate (`{'content': .., 'sections': .., 'token_count': ..}`). -/
structure Chunk where
  content : Text
  sections : List Text
  token_count : Nat
deriving DecidableEq, Repr

/-- A chunk after metadata assembly; only the metadata fields the
chunking core itself computes are modelled (`chunk_index`,
`total_chunks`); the pass-through page metadata is opaque. -/
structure FinalChunk where
  content : Text
  sections : List Text
  token_count : Nat
  chunk_index : Nat
  total_chunks : Nat
deriving DecidableEq, Repr

/-- The four size constants of the chunking configuration. -/
structure Config where
  CHUNK_SIZE_MIN : Nat
  CHUNK_SIZE_TARGET : Nat
  CHUNK_SIZE_MAX : Nat
  CHUNK_OVERLAP : Nat
deriving DecidableEq, Repr

/-- The constants set by `RagProcessor.__init__` (hard-coded). -/
def ragConfig : Config := ⟨500, 800, 1200, 150⟩

/-- The size-constant part of `RagProcessor.__init__`: the
`chunk_size_target` argument is accepted but the four constants are
assigned fixed literals; no validation is performed and no exception
can be raised on this path, hence the result is always `Except.ok`. -/
def ragInitConfig (_chunk_size_target : Nat) : Except Text Config :=
  Except.ok ragConfig

/-- The size-constant part of `GK8RagProcessor.__init__`:
`CHUNK_SIZE_MIN = 300`, `CHUNK_SIZE_TARGET = chunk_size_target`,
`CHUNK_SIZE_MAX = 1500`, `CHUNK_OVERLAP = 100`; again no validation and
no exception. -/
def gk8InitConfig (chunk_size_target : Nat) : Except Text Config :=
  Except.ok ⟨300, chunk_size_target, 1500, 100⟩

/-- `_get_overlap_content(content)`: `overlap_words = CHUNK_OVERLAP * 4 // 5`;
if `len(words) > overlap_words` return `' '.join(words[-overlap_words:])`
else return `content`.  Note Python's `words[-0:]` is the whole list,
which is why the slice is split on `overlap_words = 0`. -/
def _get_overlap_content (overlap : Nat) (content : Text) : Text :=
  let words := wordsOf content
  let overlap_words := overlap * 4 / 5
  if overlap_words < words.length then
    joinSp (if overlap_words = 0 then words else words.drop (words.length - overlap_words))
  else content

/-- `_is_major_boundary(current_section, previous_section)`. -/
def _is_major_boundary (current_section : Section) (previous_section : Option Section) : Bool :=
  if current_section.level ≤ 2 then true
  else
    match previous_section with
    | some p => hasTicks p.content != hasTicks current_section.content
    | none => false

/-- Loop body of `_group_related_sections`: `cur` is the (non-empty)
current group, `prev` its last element, i.e. the predecessor of the
next section examined. -/
def groupAux (prev : Section) (cur : List Section) : List Section → List (List Section)
  | [] => [cur]
  | s :: rest =>
    if _is_major_boundary s (some prev) then cur :: groupAux s [s] rest
    else groupAux s (cur ++ [s]) rest

/-- `_group_related_sections(sections)`. -/
def _group_related_sections : List Section → List (List Section)
  | [] => []
  | s :: rest => groupAux s [s] rest

/-- Rendering of one section inside a chunk:
`f"\n\n# {title}\n\n{content}"`, or `f"\n\n{content}"` for the untitled
sentinel `'Content'`. -/
def sectionRender (s : Section) : Text :=
  if s.title = txt "Content" then txt "\n\n" ++ s.content
  else txt "\n\n# " ++ s.title ++ txt "\n\n" ++ s.content

/-- The accumulation loop of `_create_chunk_from_sections` (string
concatenation over the group, starting from the empty string). -/
def contentFold (g : List Section) : Text :=
  g.foldl (fun acc s => acc ++ sectionRender s) []

/-- The same text as a map-and-concat, used in statements. -/
def rawRender (g : List Section) : Text :=
  (g.map sectionRender).flatten

/-- `_create_chunk_from_sections(sections, metadata)`: note the stored
`token_count` is the estimate of the text BEFORE `.strip()`. -/
def _create_chunk_from_sections (tok : Text → Nat) (g : List Section) : Chunk :=
  { content := stripWS (contentFold g)
    sections := g.map Section.title
    token_count := tok (contentFold g) }

/-- The running buffer of `_split_large_group`
(`current_chunk_content`, `current_chunk_sections`, `current_tokens`). -/
structure Buf where
  content : Text
  sections : List Text
  tokens : Nat
deriving DecidableEq, Repr

/-- Flushing the buffer appends `current_chunk_content.strip()` with the
stored (possibly stale) token count. -/
def mkChunk (b : Buf) : Chunk := ⟨stripWS b.content, b.sections, b.tokens⟩

/-- The odd-index / even-index pairing performed by
`for i in range(1, len(section_parts), 2)` over the tail of
`section_parts`: each element is a code part together with the text
part following it, when present. -/
def toPairs : List Text → List (Text × Option Text)
  | [] => []
  | [c] => [(c, none)]
  | c :: t :: more => (c, some t) :: toPairs more

/-- Lines 736-751 of `_split_large_group`: add the fenced block as an
indivisible unit, flushing first (new chunk `"<title> (continued)"`)
when it would push past `CHUNK_SIZE_MAX`. -/
def processPairCode (cfg : Config) (tok : Text → Nat) (title : Text)
    (b : Buf) (code : Text) : List Chunk × Buf :=
  let code_block := fenceT ++ code ++ fenceT
  let code_tokens := tok code_block
  if cfg.CHUNK_SIZE_MAX < b.tokens + code_tokens then
    let nc := txt "# " ++ title ++ txt " (continued)\n\n" ++ code_block
    ((if stripWS b.content = [] then [] else [mkChunk b]), Buf.mk nc [title] (tok nc))
  else
    ([], Buf.mk (b.content ++ txt "\n\n" ++ code_block) b.sections (b.tokens + code_tokens))

/-- Lines 756-762 of `_split_large_group`: append the text part
following a fenced block only when it fits within `CHUNK_SIZE_MAX`
(otherwise it is left nowhere). -/
def processPairAfter (cfg : Config) (tok : Text → Nat) (b1 : Buf) :
    Option Text → Buf
  | none => b1
  | some text_after =>
    if b1.tokens + tok text_after ≤ cfg.CHUNK_SIZE_MAX then
      Buf.mk (b1.content ++ txt "\n\n" ++ text_after) b1.sections (b1.tokens + tok text_after)
    else b1

/-- One iteration of the code-block loop of `_split_large_group`
(lines 734-762). -/
def processPair (cfg : Config) (tok : Text → Nat) (title : Text)
    (b : Buf) (p : Text × Option Text) : List Chunk × Buf :=
  ((processPairCode cfg tok title b p.1).1,
   processPairAfter cfg tok (processPairCode cfg tok title b p.1).2 p.2)

/-- The full code-block loop over the paired tail of `section_parts`. -/
def processPairs (cfg : Config) (tok : Text → Nat) (title : Text)
    (b : Buf) : List (Text × Option Text) → List Chunk × Buf
  | [] => ([], b)
  | p :: rest =>
    ((processPair cfg tok title b p).1
       ++ (processPairs cfg tok title (processPair cfg tok title b p).2 rest).1,
     (processPairs cfg tok title (processPair cfg tok title b p).2 rest).2)

/-- The code-fence branch of `_split_large_group` (lines 709-762): the
buffer is flushed only when non-empty AND at least `CHUNK_SIZE_MIN`
tokens, and is then unconditionally overwritten with the section header
plus the text before the first fence. -/
def processFenceSection (cfg : Config) (tok : Text → Nat) (s : Section)
    (b : Buf) : List Chunk × Buf :=
  let flushed :=
    if b.content ≠ [] ∧ cfg.CHUNK_SIZE_MIN ≤ b.tokens then [mkChunk b] else []
  match splitTicks s.content with
  | [] => (flushed, b)
  | text_before :: rest =>
    let c0 := if s.title = txt "Content" then text_before
      else txt "# " ++ s.title ++ txt "\n\n" ++ text_before
    (flushed ++ (processPairs cfg tok s.title ⟨c0, [s.title], tok c0⟩ (toPairs rest)).1,
     (processPairs cfg tok s.title ⟨c0, [s.title], tok c0⟩ (toPairs rest)).2)

/-- The plain-text branch of `_split_large_group` (lines 763-798). -/
def processPlainSection (cfg : Config) (tok : Text → Nat) (s : Section)
    (b : Buf) : List Chunk × Buf :=
  let section_tokens := tok s.content
  if cfg.CHUNK_SIZE_TARGET < b.tokens + section_tokens then
    if cfg.CHUNK_SIZE_MIN ≤ b.tokens then
      let overlap_content := _get_overlap_content cfg.CHUNK_OVERLAP b.content
      let nc := overlap_content ++ sectionRender s
      ([mkChunk b], ⟨nc, [s.title], tok nc⟩)
    else
      ([], ⟨b.content ++ sectionRender s, b.sections ++ [s.title], b.tokens + section_tokens⟩)
  else
    ([], ⟨b.content ++ sectionRender s, b.sections ++ [s.title], b.tokens + section_tokens⟩)

/-- One iteration of the outer section loop of `_split_large_group`. -/
def processSection (cfg : Config) (tok : Text → Nat) (s : Section)
    (b : Buf) : List Chunk × Buf :=
  if hasTicks s.content then processFenceSection cfg tok s b
  else processPlainSection cfg tok s b

/-- The outer section loop of `_split_large_group`. -/
def splitLoop (cfg : Config) (tok : Text → Nat) (b : Buf) :
    List Section → List Chunk × Buf
  | [] => ([], b)
  | s :: rest =>
    ((processSection cfg tok s b).1
       ++ (splitLoop cfg tok (processSection cfg tok s b).2 rest).1,
     (splitLoop cfg tok (processSection cfg tok s b).2 rest).2)

/-- `_split_large_group(group, metadata)`. -/
def _split_large_group (cfg : Config) (tok : Text → Nat)
    (group : List Section) : List Chunk :=
  (splitLoop cfg tok (Buf.mk [] [] 0) group).1
    ++ (if stripWS (splitLoop cfg tok (Buf.mk [] [] 0) group).2.content = [] then []
        else [mkChunk (splitLoop cfg tok (Buf.mk [] [] 0) group).2])

/-- The pre-validation chunk list built by `create_chunks`
(lines 577-598): group, then size each group. -/
def create_chunks_prevalidation (cfg : Config) (tok : Text → Nat)
    (sections : List Section) : List Chunk :=
  if sections.isEmpty then []
  else
    (_group_related_sections sections).flatMap (fun group =>
      let group_tokens := (group.map (fun s => tok s.content)).sum
      if cfg.CHUNK_SIZE_MIN ≤ group_tokens ∧ group_tokens ≤ cfg.CHUNK_SIZE_MAX then
        [_create_chunk_from_sections tok group]
      else if cfg.CHUNK_SIZE_MAX < group_tokens then
        _split_large_group cfg tok group
      else
        [_create_chunk_from_sections tok group])

/-- `_validate_chunk(chunk)`: `total` is the provisional
`metadata['total_chunks']` of the chunk.  Returns the `(bool, reason)`
pair of the source. -/
def _validate_chunk (cfg : Config) (total : Nat) (chunk : Chunk) : Bool × Text :=
  let content := chunk.content
  let tokens := chunk.token_count
  if tokens < cfg.CHUNK_SIZE_MIN then
    if total = 1 then (true, txt "Single chunk - size allowed")
    else if hasTicks content then (true, txt "Contains important content")
    else (false, txt "Chunk too small (" ++ natText tokens ++ txt " tokens)")
  else if cfg.CHUNK_SIZE_MAX < tokens then
    (false, txt "Chunk too large (" ++ natText tokens ++ txt " tokens)")
  else if tickCount content % 2 ≠ 0 then
    (false, txt "Incomplete code block")
  else
    let stripped_content := stripWS content
    let orphaned_starts : List Text :=
      [txt "else:", txt "elif:", txt "\x7d", txt "]", txt ")",
       txt "except:", txt "finally:", txt "catch"]
    match orphaned_starts.find? (fun o => o.isPrefixOf stripped_content) with
    | some o => (false, txt "Chunk starts with orphaned code: " ++ o)
    | none => (true, txt "Valid")

/-- The validation loop of `create_chunks` (lines 601-617): provisional
`chunk_index = i+1`, provisional `total_chunks = len(chunks)`, content
stripped, invalid chunks dropped. -/
def validatePass (cfg : Config) (total : Nat) (i : Nat) :
    List Chunk → List FinalChunk
  | [] => []
  | c :: rest =>
    let stripped : Chunk := ⟨stripWS c.content, c.sections, c.token_count⟩
    let fc : FinalChunk :=
      ⟨stripped.content, stripped.sections, stripped.token_count, i + 1, total⟩
    if (_validate_chunk cfg total stripped).1 then
      fc :: validatePass cfg total (i + 1) rest
    else validatePass cfg total (i + 1) rest

/-- The re-numbering loop of `create_chunks` (lines 619-621). -/
def renumberAux (total : Nat) (i : Nat) : List FinalChunk → List FinalChunk
  | [] => []
  | c :: rest =>
    ⟨c.content, c.sections, c.token_count, i + 1, total⟩ :: renumberAux total (i + 1) rest

/-- Validation plus re-numbering (lines 600-623 of `create_chunks`). -/
def finalizeChunks (cfg : Config) (chunks : List Chunk) : List FinalChunk :=
  let validated := validatePass cfg chunks.length 0 chunks
  renumberAux validated.length 0 validated

/-- `create_chunks(content, metadata)`, starting from the extracted
section sequence. -/
def create_chunks (cfg : Config) (tok : Text → Nat)
    (sections : List Section) : List FinalChunk :=
  finalizeChunks cfg (create_chunks_prevalidation cfg tok sections)

/-- The paragraph loop of the oversized-section fallback of
`GK8RagProcessor.create_chunks` (gk8_rag_processor.py lines 580-603):
`temp` / `ttoks` are `temp_content` / `temp_tokens`. -/
def gk8SplitAux (cfg : Config) (tok : Text → Nat) (title : Text)
    (temp : Text) (ttoks : Nat) : List Text → List Chunk
  | [] => if stripWS temp = [] then [] else [⟨stripWS temp, [title], ttoks⟩]
  | para :: rest =>
    let para_tokens := tok para
    if cfg.CHUNK_SIZE_TARGET < ttoks + para_tokens then
      let emitted := if stripWS temp = [] then [] else [(⟨stripWS temp, [title], ttoks⟩ : Chunk)]
      let nt := txt "# " ++ title ++ txt "\n\n" ++ para ++ txt "\n\n"
      emitted ++ gk8SplitAux cfg tok title nt (tok nt) rest
    else
      gk8SplitAux cfg tok title (temp ++ para ++ txt "\n\n") (ttoks + para_tokens) rest

/-- The oversized-section fallback of `GK8RagProcessor.create_chunks`
(gk8_rag_processor.py lines 575-603): split the section body at
paragraph (blank-line) boundaries, with the TARGET-based flush rule. -/
def gk8_split_large_section (cfg : Config) (tok : Text → Nat)
    (title : Text) (content : Text) : List Chunk :=
  let temp := if title = txt "Content" then [] else txt "# " ++ title ++ txt "\n\n"
  gk8SplitAux cfg tok title temp (tok temp) (splitParas content)

/-- The text a run of whole paragraphs contributes to a gk8 fallback
chunk: each paragraph followed by the blank line the loop appends. -/
def glueParas (run : List Text) : Text :=
  (run.map (fun p => p ++ txt "\n\n")).flatten

/-- Ghost companion of `gk8SplitAux`: the same control flow, recording
for each emitted chunk its header, its run of whole paragraphs, and
the token count at flush time, instead of the rendered text. -/
def gk8Runs (cfg : Config) (tok : Text → Nat) (title : Text)
    (hdr : Text) (run : List Text) (ttoks : Nat) :
    List Text → List (Text × List Text × Nat)
  | [] => [(hdr, run, ttoks)]
  | para :: rest =>
    if cfg.CHUNK_SIZE_TARGET < ttoks + tok para then
      (hdr, run, ttoks)
        :: gk8Runs cfg tok title (txt "# " ++ title ++ txt "\n\n") [para]
            (tok (txt "# " ++ title ++ txt "\n\n" ++ para ++ txt "\n\n")) rest
    else gk8Runs cfg tok title hdr (run ++ [para]) (ttoks + tok para) rest

/-- The fenced blocks a section's split parts give rise to in
`_split_large_group`: the odd-index parts, re-wrapped in fences. -/
def blocksOfPairs (ps : List (Text × Option Text)) : List Text :=
  ps.map (fun p => fenceT ++ p.1 ++ fenceT)

/-- Modelled from the words of claim C7: the overlap slice as the last
`round(CHUNK_OVERLAP * 0.8)` whitespace-delimited words of the buffer,
the whole buffer when it has fewer words than that.  `0.8 * overlap`
has fractional part in `{0, .2, .4, .6, .8}`, so rounding to nearest is
`(4 * overlap + 2) / 5` and ties never occur. -/
def claimed_overlap (overlap : Nat) (content : Text) : Text :=
  let k := (4 * overlap + 2) / 5
  let words := wordsOf content
  if words.length < k then content else joinSp (words.rtake k)

/-- The behaviour `_get_overlap_content` actually implements, stated
with a floor-divided word budget `CHUNK_OVERLAP * 4 // 5` and
`List.rtake` for the trailing words (re-joined with single spaces). -/
def overlap_amended (overlap : Nat) (content : Text) : Text :=
  let words := wordsOf content
  let k := overlap * 4 / 5
  if k = 0 then (if words.isEmpty then content else joinSp words)
  else if words.length ≤ k then content
  else joinSp (words.rtake k)

/-! Concrete inputs used to settle the individual claims. -/

/-- C1: a tiny caller-supplied configuration. -/
def c1cfg : Config := ⟨30, 50, 60, 10⟩

/-- C1: a level-3 fenced section whose text is silently lost. -/
def c1secA : Section := ⟨3, txt "A", txt "aaa```bbb```"⟩

/-- C1: the following level-3 fenced section (same group: level above 2
and fence presence equal), large enough to push the group past MAX. -/
def c1secB : Section :=
  ⟨3, txt "B", List.replicate 30 'c' ++ fenceT ++ List.replicate 20 'd' ++ fenceT⟩

/-- C1: the document (one group of the two fenced sections). -/
def c1doc : List Section := [c1secA, c1secB]

/-- C2: configuration for the odd-fence counterexample. -/
def c2cfg : Config := ⟨20, 30, 40, 2⟩

/-- C2: a sole section whose body contains a single stray fence marker. -/
def c2sec : Section := ⟨3, txt "T", txt "see ``` here"⟩

/-- C5: a tiny caller-supplied configuration. -/
def c5cfg : Config := ⟨5, 8, 12, 2⟩

/-- C5: one code-free section with two paragraphs, whose body estimate
(14 under the character-count estimator) exceeds `CHUNK_SIZE_MAX` (12). -/
def c5sec : Section := ⟨3, txt "T", txt "aaaaaa\n\nbbbbbb"⟩

/-- C5: configuration for the gk8 paragraph-fallback demonstration
(the same section body exceeds its MAX of 12). -/
def c5gcfg : Config := ⟨2, 10, 12, 2⟩

/-- C6: configuration for the token-drift counterexample. -/
def c6cfg : Config := ⟨2, 30, 40, 1⟩

/-- C6: three untitled sections; the first two accumulate in the
buffer, the third forces a flush that exposes the stale count. -/
def c6doc : List Section :=
  [⟨3, txt "Content", txt "abcd"⟩, ⟨3, txt "Content", txt "efgh"⟩,
   ⟨3, txt "Content", List.replicate 35 'i'⟩]

/-! Helper lemmas. -/

theorem containsSub_spec (sub : Text) : ∀ l : Text,
    (containsSub sub l = true ↔ sub <:+: l)
  | [] => by
    simp only [containsSub, List.isEmpty_iff]
    constructor
    · intro h; rw [h]
    · intro h
      rcases h with ⟨s, t, hst⟩
      rcases List.append_eq_nil.mp hst with ⟨h1, h2⟩
      exact (List.append_eq_nil.mp h1).2
  | c :: rest => by
    simp only [containsSub, Bool.or_eq_true, List.isPrefixOf_iff_prefix,
      containsSub_spec sub rest, List.infix_cons_iff]

theorem infix_dropWhileWS {sub : Text}
    (hh : ∀ c, sub.head? = some c → isSpaceChar c = false) :
    ∀ {l : Text}, sub <:+: l → sub <:+: dropWhileWS l
  | [], h => by simpa [dropWhileWS] using h
  | c :: rest, h => by
    unfold dropWhileWS
    by_cases hc : isSpaceChar c
    · rw [if_pos hc]
      rcases List.infix_cons_iff.mp h with hpre | hinf
      · cases sub with
        | nil => exact List.nil_infix
        | cons s0 stail =>
          exfalso
          rcases hpre with ⟨t, ht⟩
          rw [List.cons_append] at ht
          have hs0 : s0 = c := (List.cons.injEq _ _ _ _ ▸ ht).1
          have h1 : isSpaceChar s0 = false := hh s0 rfl
          rw [hs0] at h1
          simp [h1] at hc
      · exact infix_dropWhileWS hh hinf
    · rw [if_neg hc]; exact h

theorem infix_stripWS {sub : Text} {l : Text}
    (hh : ∀ c, sub.head? = some c → isSpaceChar c = false)
    (hl : ∀ c, sub.getLast? = some c → isSpaceChar c = false)
    (h : sub <:+: l) : sub <:+: stripWS l := by
  have h1 : sub <:+: dropWhileWS l := infix_dropWhileWS hh h
  have h2 : sub.reverse <:+: (dropWhileWS l).reverse := List.reverse_infix.mpr h1
  have h3 : sub.reverse <:+: dropWhileWS ((dropWhileWS l).reverse) := by
    refine infix_dropWhileWS ?_ h2
    intro c hc
    rw [List.head?_reverse] at hc
    exact hl c hc
  have h4 : sub.reverse <:+: (stripWS l).reverse := by
    unfold stripWS
    rw [List.reverse_reverse]
    exact h3
  exact List.reverse_infix.mp h4

theorem mem_dropWhileWS {c : Char} (hc : isSpaceChar c = false) :
    ∀ {l : Text}, c ∈ l → c ∈ dropWhileWS l
  | d :: rest, h => by
    unfold dropWhileWS
    by_cases hd : isSpaceChar d
    · rw [if_pos hd]
      rcases List.mem_cons.mp h with h1 | h2
      · rw [h1] at hc; simp [hc] at hd
      · exact mem_dropWhileWS hc h2
    · rw [if_neg hd]; exact h

theorem stripWS_ne_nil {c : Char} {l : Text}
    (hc : isSpaceChar c = false) (h : c ∈ l) : stripWS l ≠ [] := by
  have h1 : c ∈ dropWhileWS l := mem_dropWhileWS hc h
  have h2 : c ∈ (dropWhileWS l).reverse := List.mem_reverse.mpr h1
  have h3 : c ∈ dropWhileWS ((dropWhileWS l).reverse) := mem_dropWhileWS hc h2
  have h4 : c ∈ stripWS l := by
    unfold stripWS
    exact List.mem_reverse.mpr h3
  exact List.ne_nil_of_mem h4

theorem contentFold_from (g : List Section) : ∀ acc : Text,
    g.foldl (fun a s => a ++ sectionRender s) acc = acc ++ rawRender g := by
  induction g with
  | nil => intro acc; simp [rawRender]
  | cons s rest ih =>
    intro acc
    simp only [List.foldl_cons, rawRender, List.map_cons, List.flatten_cons] at *
    rw [ih (acc ++ sectionRender s), List.append_assoc]

theorem contentFold_eq_rawRender (g : List Section) : contentFold g = rawRender g := by
  unfold contentFold
  rw [contentFold_from g []]
  simp

theorem renumberAux_spec (total : Nat) : ∀ (l : List FinalChunk) (i : Nat),
    (renumberAux total i l).map FinalChunk.chunk_index = List.range' (i + 1) l.length
    ∧ (renumberAux total i l).map FinalChunk.total_chunks = List.replicate l.length total
    ∧ (renumberAux total i l).length = l.length
  | [], i => by simp [renumberAux]
  | c :: rest, i => by
    have ih := renumberAux_spec total rest (i + 1)
    simp only [renumberAux, List.map_cons, List.length_cons, List.range'_succ,
      List.replicate_succ, ih.1, ih.2.1, ih.2.2, List.length_map]
    exact ⟨trivial, trivial, trivial⟩

theorem groupAux_cons_true {s prev : Section} {cur rest : List Section}
    (h : _is_major_boundary s (some prev) = true) :
    groupAux prev cur (s :: rest) = cur :: groupAux s [s] rest := by
  simp [groupAux, h]

theorem groupAux_cons_false {s prev : Section} {cur rest : List Section}
    (h : _is_major_boundary s (some prev) = false) :
    groupAux prev cur (s :: rest) = groupAux s (cur ++ [s]) rest := by
  simp [groupAux, h]

theorem groupAux_flatten : ∀ (rest : List Section) (prev : Section) (cur : List Section),
    (groupAux prev cur rest).flatten = cur ++ rest
  | [], prev, cur => by simp [groupAux]
  | s :: rest, prev, cur => by
    cases hb : _is_major_boundary s (some prev) with
    | true =>
      rw [groupAux_cons_true hb, List.flatten_cons, groupAux_flatten rest s [s]]
      simp
    | false =>
      rw [groupAux_cons_false hb, groupAux_flatten rest s (cur ++ [s])]
      simp

theorem groupAux_ne_nil : ∀ (rest : List Section) (prev : Section) (cur : List Section),
    cur ≠ [] → ∀ g ∈ groupAux prev cur rest, g ≠ []
  | [], prev, cur, hc => by simpa [groupAux] using hc
  | s :: rest, prev, cur, hc => by
    cases hb : _is_major_boundary s (some prev) with
    | true =>
      rw [groupAux_cons_true hb]
      intro g hg
      rcases List.mem_cons.mp hg with h1 | h2
      · rw [h1]; exact hc
      · exact groupAux_ne_nil rest s [s] (by simp) g h2
    | false =>
      rw [groupAux_cons_false hb]
      exact groupAux_ne_nil rest s (cur ++ [s]) (by simp)

theorem groupAux_head : ∀ (rest : List Section) (prev : Section) (cur : List Section),
    cur ≠ [] → ∃ g gs, groupAux prev cur rest = g :: gs ∧ g.head? = cur.head?
  | [], prev, cur, _ => ⟨cur, [], rfl, rfl⟩
  | s :: rest, prev, cur, hc => by
    cases hb : _is_major_boundary s (some prev) with
    | true =>
      exact ⟨cur, groupAux s [s] rest, groupAux_cons_true hb, rfl⟩
    | false =>
      rcases groupAux_head rest s (cur ++ [s]) (by simp) with ⟨g, gs, heq, hh⟩
      refine ⟨g, gs, by rw [groupAux_cons_false hb, heq], ?_⟩
      rw [hh]
      cases cur with
      | nil => exact absurd rfl hc
      | cons c0 ctail => simp

theorem groupAux_inner_chain : ∀ (rest : List Section) (prev : Section) (cur : List Section),
    cur.getLast? = some prev →
    List.Chain' (fun a b => _is_major_boundary b (some a) = false) cur →
    ∀ g ∈ groupAux prev cur rest,
      List.Chain' (fun a b => _is_major_boundary b (some a) = false) g
  | [], prev, cur, _, hch => by
    intro g hg
    simp only [groupAux, List.mem_singleton] at hg
    rw [hg]; exact hch
  | s :: rest, prev, cur, hlast, hch => by
    cases hb : _is_major_boundary s (some prev) with
    | true =>
      rw [groupAux_cons_true hb]
      intro g hg
      rcases List.mem_cons.mp hg with h1 | h2
      · rw [h1]; exact hch
      · exact groupAux_inner_chain rest s [s] rfl (List.chain'_singleton s) g h2
    | false =>
      rw [groupAux_cons_false hb]
      refine groupAux_inner_chain rest s (cur ++ [s]) (by simp) ?_
      refine List.Chain'.append hch (List.chain'_singleton s) ?_
      intro x hx y hy
      rw [hlast] at hx
      have hx' : x = prev := by simpa using hx.symm
      have hy' : y = s := by simpa using hy.symm
      rw [hx', hy']
      exact hb

theorem groupAux_outer_chain : ∀ (rest : List Section) (prev : Section) (cur : List Section),
    cur ≠ [] → cur.getLast? = some prev →
    List.Chain' (fun g h => ∀ a b, g.getLast? = some a → h.head? = some b →
      _is_major_boundary b (some a) = true) (groupAux prev cur rest)
  | [], prev, cur, _, _ => List.chain'_singleton cur
  | s :: rest, prev, cur, hc, hlast => by
    cases hb : _is_major_boundary s (some prev) with
    | true =>
      rw [groupAux_cons_true hb]
      rcases groupAux_head rest s [s] (by simp) with ⟨g, gs, heq, hh⟩
      rw [heq]
      refine List.chain'_cons.mpr ⟨?_, ?_⟩
      · intro a b ha hbs
        rw [hlast] at ha
        have ha' : a = prev := by simpa using ha.symm
        have hb' : b = s := by
          rw [hh] at hbs
          simpa using hbs.symm
        rw [ha', hb']
        exact hb
      · rw [← heq]
        exact groupAux_outer_chain rest s [s] (by simp) rfl
    | false =>
      rw [groupAux_cons_false hb]
      exact groupAux_outer_chain rest s (cur ++ [s]) (by simp) (by simp)

theorem eq_nil_of_infix_nil {l : Text} (h : l <:+: []) : l = [] := by
  rcases h with ⟨s, t, hst⟩
  rcases List.append_eq_nil.mp hst with ⟨h1, h2⟩
  exact (List.append_eq_nil.mp h1).2

theorem infix_append_right {l m t : Text} (h : l <:+: m) : l <:+: m ++ t :=
  h.trans (List.prefix_append m t).isInfix

theorem suffix_appendLeft {l t : Text} (h : l <:+ t) (x : Text) : l <:+ x ++ t :=
  h.trans (List.suffix_append x t)

theorem fence_block_head (p : Text) :
    ∀ c, (fenceT ++ p ++ fenceT).head? = some c → isSpaceChar c = false := by
  intro c hc
  have : c = tickChar := by
    simp [fenceT] at hc
    exact hc.symm
  rw [this]
  decide

theorem fence_block_getLast (p : Text) :
    ∀ c, (fenceT ++ p ++ fenceT).getLast? = some c → isSpaceChar c = false := by
  intro c hc
  rw [List.getLast?_append_of_ne_nil _ (by decide : fenceT ≠ [])] at hc
  have : c = tickChar := by
    simp [fenceT] at hc
    exact hc.symm
  rw [this]
  decide

theorem fence_block_ne_nil (p : Text) : fenceT ++ p ++ fenceT ≠ [] := by
  simp [fenceT]

theorem processPairAfter_extends (cfg : Config) (tok : Text → Nat) (b1 : Buf)
    (o : Option Text) : b1.content <:+: (processPairAfter cfg tok b1 o).content := by
  cases o with
  | none => exact List.infix_rfl
  | some t =>
    simp only [processPairAfter]
    by_cases h : b1.tokens + tok t ≤ cfg.CHUNK_SIZE_MAX
    · rw [if_pos h]
      show b1.content <:+: b1.content ++ txt "\n\n" ++ t
      exact ((List.prefix_append _ _).trans (List.prefix_append _ _)).isInfix
    · rw [if_neg h]

theorem processPairCode_preserve {cfg : Config} {tok : Text → Nat}
    {title : Text} {b : Buf} {code blk : Text}
    (hh : ∀ c, blk.head? = some c → isSpaceChar c = false)
    (hl : ∀ c, blk.getLast? = some c → isSpaceChar c = false)
    (hne : blk ≠ []) (hin : blk <:+: b.content) :
    (∃ ch ∈ (processPairCode cfg tok title b code).1, blk <:+: ch.content)
    ∨ blk <:+: (processPairCode cfg tok title b code).2.content := by
  simp only [processPairCode]
  split_ifs with hov hstr
  · exfalso
    have h1 : blk <:+: stripWS b.content := infix_stripWS hh hl hin
    rw [hstr] at h1
    exact hne (eq_nil_of_infix_nil h1)
  · left
    exact ⟨mkChunk b, List.mem_singleton.mpr rfl, infix_stripWS hh hl hin⟩
  · right
    exact infix_append_right (infix_append_right hin)

theorem processPairCode_introduce (cfg : Config) (tok : Text → Nat)
    (title : Text) (b : Buf) (code : Text) :
    (fenceT ++ code ++ fenceT) <:+: (processPairCode cfg tok title b code).2.content := by
  simp only [processPairCode]
  split_ifs with hov hstr
  · show (fenceT ++ code ++ fenceT)
      <:+: txt "# " ++ title ++ txt " (continued)\n\n" ++ (fenceT ++ code ++ fenceT)
    exact (List.suffix_append _ _).isInfix
  · show (fenceT ++ code ++ fenceT)
      <:+: txt "# " ++ title ++ txt " (continued)\n\n" ++ (fenceT ++ code ++ fenceT)
    exact (List.suffix_append _ _).isInfix
  · show (fenceT ++ code ++ fenceT)
      <:+: b.content ++ txt "\n\n" ++ (fenceT ++ code ++ fenceT)
    exact (List.suffix_append _ _).isInfix

theorem processPair_preserve {cfg : Config} {tok : Text → Nat}
    {title : Text} {b : Buf} {p : Text × Option Text} {blk : Text}
    (hh : ∀ c, blk.head? = some c → isSpaceChar c = false)
    (hl : ∀ c, blk.getLast? = some c → isSpaceChar c = false)
    (hne : blk ≠ []) (hin : blk <:+: b.content) :
    (∃ ch ∈ (processPair cfg tok title b p).1, blk <:+: ch.content)
    ∨ blk <:+: (processPair cfg tok title b p).2.content := by
  rcases @processPairCode_preserve cfg tok title b p.1 blk hh hl hne hin with h | h
  · left; exact h
  · right
    exact h.trans (processPairAfter_extends cfg tok _ p.2)

theorem processPair_introduce (cfg : Config) (tok : Text → Nat)
    (title : Text) (b : Buf) (p : Text × Option Text) :
    (fenceT ++ p.1 ++ fenceT) <:+: (processPair cfg tok title b p).2.content :=
  (processPairCode_introduce cfg tok title b p.1).trans
    (processPairAfter_extends cfg tok _ p.2)

theorem processPairs_preserve {cfg : Config} {tok : Text → Nat}
    {title : Text} {blk : Text}
    (hh : ∀ c, blk.head? = some c → isSpaceChar c = false)
    (hl : ∀ c, blk.getLast? = some c → isSpaceChar c = false)
    (hne : blk ≠ []) :
    ∀ (ps : List (Text × Option Text)) (b : Buf), blk <:+: b.content →
      (∃ ch ∈ (processPairs cfg tok title b ps).1, blk <:+: ch.content)
      ∨ blk <:+: (processPairs cfg tok title b ps).2.content
  | [], b, hin => by right; simpa [processPairs] using hin
  | p :: rest, b, hin => by
    simp only [processPairs]
    rcases @processPair_preserve cfg tok title b p blk hh hl hne hin with ⟨ch, hch, hblk⟩ | h
    · left
      exact ⟨ch, List.mem_append_left _ hch, hblk⟩
    · rcases processPairs_preserve hh hl hne rest _ h with ⟨ch, hch, hblk⟩ | h2
      · left
        exact ⟨ch, List.mem_append_right _ hch, hblk⟩
      · right
        exact h2

theorem processPairs_introduce {cfg : Config} {tok : Text → Nat} {title : Text} :
    ∀ (ps : List (Text × Option Text)) (b : Buf), ∀ blk ∈ blocksOfPairs ps,
      (∃ ch ∈ (processPairs cfg tok title b ps).1, blk <:+: ch.content)
      ∨ blk <:+: (processPairs cfg tok title b ps).2.content
  | [], b, blk, hblk => by simp [blocksOfPairs] at hblk
  | p :: rest, b, blk, hblk => by
    simp only [blocksOfPairs, List.map_cons, List.mem_cons] at hblk
    simp only [processPairs]
    rcases hblk with h1 | h2
    · subst h1
      have hintro := processPair_introduce cfg tok title b p
      rcases processPairs_preserve (fence_block_head p.1) (fence_block_getLast p.1)
          (fence_block_ne_nil p.1) rest _ hintro with ⟨ch, hch, hblk'⟩ | h
      · left
        exact ⟨ch, List.mem_append_right _ hch, hblk'⟩
      · right
        exact h
    · rcases processPairs_introduce rest (processPair cfg tok title b p).2 blk
          (by simpa [blocksOfPairs] using h2) with ⟨ch, hch, hblk'⟩ | h
      · left
        exact ⟨ch, List.mem_append_right _ hch, hblk'⟩
      · right
        exact h

theorem validatePass_source (cfg : Config) (total : Nat) :
    ∀ (l : List Chunk) (i : Nat), ∀ fc ∈ validatePass cfg total i l, ∃ p ∈ l,
      fc.content = stripWS p.content ∧ fc.sections = p.sections
      ∧ fc.token_count = p.token_count
  | [], i => by simp [validatePass]
  | c :: rest, i => by
    simp only [validatePass]
    by_cases hv :
        (_validate_chunk cfg total ⟨stripWS c.content, c.sections, c.token_count⟩).1 = true
    · rw [if_pos hv]
      intro fc hfc
      rcases List.mem_cons.mp hfc with h1 | h2
      · exact ⟨c, List.mem_cons_self _ _, by rw [h1]; exact ⟨rfl, rfl, rfl⟩⟩
      · rcases validatePass_source cfg total rest (i + 1) fc h2 with ⟨p, hp, hf⟩
        exact ⟨p, List.mem_cons_of_mem _ hp, hf⟩
    · rw [if_neg hv]
      intro fc hfc
      rcases validatePass_source cfg total rest (i + 1) fc hfc with ⟨p, hp, hf⟩
      exact ⟨p, List.mem_cons_of_mem _ hp, hf⟩

theorem renumberAux_source (total : Nat) :
    ∀ (l : List FinalChunk) (i : Nat), ∀ fc ∈ renumberAux total i l, ∃ p ∈ l,
      fc.content = p.content ∧ fc.sections = p.sections
      ∧ fc.token_count = p.token_count
  | [], i => by simp [renumberAux]
  | c :: rest, i => by
    simp only [renumberAux]
    intro fc hfc
    rcases List.mem_cons.mp hfc with h1 | h2
    · exact ⟨c, List.mem_cons_self _ _, by rw [h1]; exact ⟨rfl, rfl, rfl⟩⟩
    · rcases renumberAux_source total rest (i + 1) fc h2 with ⟨p, hp, hf⟩
      exact ⟨p, List.mem_cons_of_mem _ hp, hf⟩

theorem gk8SplitAux_runs (cfg : Config) (tok : Text → Nat) (title : Text) :
    ∀ (paras : List Text) (hdr : Text) (run : List Text) (ttoks : Nat) (temp : Text),
      temp = hdr ++ glueParas run → '#' ∈ hdr →
      gk8SplitAux cfg tok title temp ttoks paras
        = (gk8Runs cfg tok title hdr run ttoks paras).map
            (fun pr => ⟨stripWS (pr.1 ++ glueParas pr.2.1), [title], pr.2.2⟩)
  | [], hdr, run, ttoks, temp, htemp, hmem => by
    subst htemp
    have hne : stripWS (hdr ++ glueParas run) ≠ [] :=
      stripWS_ne_nil (by decide) (List.mem_append_left _ hmem)
    simp only [gk8SplitAux, gk8Runs, List.map_cons, List.map_nil]
    rw [if_neg hne]
  | para :: rest, hdr, run, ttoks, temp, htemp, hmem => by
    subst htemp
    have hne : stripWS (hdr ++ glueParas run) ≠ [] :=
      stripWS_ne_nil (by decide) (List.mem_append_left _ hmem)
    have hmemR : '#' ∈ txt "# " ++ title ++ txt "\n\n" :=
      List.mem_append_left _ (List.mem_append_left _ (by decide))
    simp only [gk8SplitAux, gk8Runs]
    by_cases hflush : cfg.CHUNK_SIZE_TARGET < ttoks + tok para
    · rw [if_pos hflush, if_pos hflush, if_neg hne]
      have hnt : txt "# " ++ title ++ txt "\n\n" ++ para ++ txt "\n\n"
          = (txt "# " ++ title ++ txt "\n\n") ++ glueParas [para] := by
        simp [glueParas, List.append_assoc]
      rw [gk8SplitAux_runs cfg tok title rest (txt "# " ++ title ++ txt "\n\n") [para]
        (tok (txt "# " ++ title ++ txt "\n\n" ++ para ++ txt "\n\n"))
        (txt "# " ++ title ++ txt "\n\n" ++ para ++ txt "\n\n") hnt hmemR]
      simp
    · rw [if_neg hflush, if_neg hflush]
      have hglue : (hdr ++ glueParas run) ++ para ++ txt "\n\n"
          = hdr ++ glueParas (run ++ [para]) := by
        simp [glueParas, List.append_assoc]
      exact gk8SplitAux_runs cfg tok title rest hdr (run ++ [para]) (ttoks + tok para)
        _ hglue hmem

theorem gk8Runs_flatten (cfg : Config) (tok : Text → Nat) (title : Text) :
    ∀ (paras : List Text) (hdr : Text) (run : List Text) (ttoks : Nat),
      ((gk8Runs cfg tok title hdr run ttoks paras).map (fun pr => pr.2.1)).flatten
        = run ++ paras
  | [], hdr, run, ttoks => by simp [gk8Runs]
  | para :: rest, hdr, run, ttoks => by
    simp only [gk8Runs]
    by_cases hflush : cfg.CHUNK_SIZE_TARGET < ttoks + tok para
    · rw [if_pos hflush]
      simp only [List.map_cons, List.flatten_cons,
        gk8Runs_flatten cfg tok title rest (txt "# " ++ title ++ txt "\n\n") [para]
          (tok (txt "# " ++ title ++ txt "\n\n" ++ para ++ txt "\n\n"))]
      simp
    · rw [if_neg hflush,
        gk8Runs_flatten cfg tok title rest hdr (run ++ [para]) (ttoks + tok para)]
      simp

/-! Claim theorems. -/

/-- C1: the coverage claim fails on the code.  For the concrete
document `c1doc` (two level-3 fenced sections forming one group whose
estimate 68 exceeds `CHUNK_SIZE_MAX` 60 under the character-count
estimator), section A's buffered text is below `CHUNK_SIZE_MIN` when
the splitter reaches section B, so the flush at rag_processor.py:711 is
skipped and the buffer is overwritten at line 727: both pre-validation
chunks come from section B, and neither section A's body, nor its plain
text `aaa`, nor its fenced text `bbb` appears in any chunk. -/
theorem C1_coverage_loss :
    (create_chunks_prevalidation c1cfg List.length c1doc).map Chunk.sections
      = [[txt "B"], [txt "B"]]
    ∧ (create_chunks_prevalidation c1cfg List.length c1doc).all
        (fun ch => !(containsSub c1secA.content ch.content)
          && !(containsSub (txt "aaa") ch.content)
          && !(containsSub (txt "bbb") ch.content)) = true := by decide

/-- C2 (counterexample): a validated output chunk can contain an odd
number of fence delimiters: a sole undersized chunk whose body holds a
single stray ``` marker is accepted by the only-chunk exception before
the parity check runs. -/
theorem C2_fence_parity_violated :
    (create_chunks c2cfg List.length [c2sec]).map
        (fun ch => (ch.content, ch.token_count, ch.chunk_index, ch.total_chunks))
      = [(txt "# T\n\nsee ``` here", 19, 1, 1)]
    ∧ (create_chunks c2cfg List.length [c2sec]).all
        (fun ch => tickCount ch.content % 2 == 1) = true := by decide

/-- C2 (amended): (1) a chunk that the validator accepts with
`token_count ≥ CHUNK_SIZE_MIN` has an even number of fence delimiters
(undersized chunks accepted through the sole-chunk or contains-fence
exceptions skip the parity check); (2) every fenced block processed by
the splitter's code-block loop lands whole (as a contiguous substring)
in an emitted chunk or in the loop's final buffer — it is never split
across two chunks. -/
theorem C2_fence_atomicity_amended :
    (∀ (cfg : Config) (total : Nat) (c : Chunk),
      (_validate_chunk cfg total c).1 = true →
      cfg.CHUNK_SIZE_MIN ≤ c.token_count →
      tickCount c.content % 2 = 0)
    ∧ (∀ (cfg : Config) (tok : Text → Nat) (title : Text) (b : Buf)
        (ps : List (Text × Option Text)), ∀ blk ∈ blocksOfPairs ps,
        (processPairs cfg tok title b ps).1.any
            (fun ch => containsSub blk ch.content) = true
        ∨ containsSub blk (processPairs cfg tok title b ps).2.content = true) := by
  constructor
  · intro cfg total c hacc hmin
    have hns : ¬ (c.token_count < cfg.CHUNK_SIZE_MIN) := by omega
    simp only [_validate_chunk] at hacc
    rw [if_neg hns] at hacc
    by_cases hbig : cfg.CHUNK_SIZE_MAX < c.token_count
    · rw [if_pos hbig] at hacc
      simp at hacc
    · rw [if_neg hbig] at hacc
      by_cases hpar : tickCount c.content % 2 ≠ 0
      · rw [if_pos hpar] at hacc
        simp at hacc
      · omega
  · intro cfg tok title b ps blk hblk
    rcases processPairs_introduce ps b blk hblk with ⟨ch, hch, hinf⟩ | hinf
    · left
      rw [List.any_eq_true]
      exact ⟨ch, hch, (containsSub_spec blk ch.content).mpr hinf⟩
    · right
      exact (containsSub_spec blk _).mpr hinf

/-- C2 (witness): the amended theorem applied to an accepted mid-size
chunk with two fence delimiters, and to a one-block pair list. -/
theorem C2_fence_atomicity_amended_witness :
    tickCount (txt "ab```cd```ef") % 2 = 0
    ∧ ((processPairs c2cfg List.length (txt "T") ⟨[], [], 0⟩ [(txt "x", none)]).1.any
          (fun ch => containsSub (fenceT ++ txt "x" ++ fenceT) ch.content) = true
       ∨ containsSub (fenceT ++ txt "x" ++ fenceT)
          (processPairs c2cfg List.length (txt "T") ⟨[], [], 0⟩ [(txt "x", none)]).2.content
          = true) :=
  ⟨C2_fence_atomicity_amended.1 c2cfg 2 ⟨txt "ab```cd```ef", [], 25⟩ (by decide) (by decide),
   C2_fence_atomicity_amended.2 c2cfg List.length (txt "T") ⟨[], [], 0⟩ [(txt "x", none)]
     (fenceT ++ txt "x" ++ fenceT) (by decide)⟩

/-- C3: grouping partitions the section sequence exactly — the groups
flatten back to the input, none is empty, no inner adjacent pair is a
major boundary, every pair of adjacent groups meets at a major
boundary — and the boundary predicate is: level at most 2 always a
boundary; otherwise a boundary exactly when fence presence differs
between the two bodies. -/
theorem C3_grouping_exact :
    (∀ cur prev : Section,
      _is_major_boundary cur (some prev)
        = (decide (cur.level ≤ 2) || (hasTicks prev.content != hasTicks cur.content)))
    ∧ (∀ ss : List Section, (_group_related_sections ss).flatten = ss)
    ∧ (∀ ss : List Section, ∀ g ∈ _group_related_sections ss, g ≠ [])
    ∧ (∀ ss : List Section, ∀ g ∈ _group_related_sections ss,
        List.Chain' (fun a b => _is_major_boundary b (some a) = false) g)
    ∧ (∀ ss : List Section,
        List.Chain' (fun g h => ∀ a b, g.getLast? = some a → h.head? = some b →
          _is_major_boundary b (some a) = true) (_group_related_sections ss)) := by
  refine ⟨?_, ?_, ?_, ?_, ?_⟩
  · intro cur prev
    unfold _is_major_boundary
    by_cases h : cur.level ≤ 2
    · simp [h]
    · simp [h]
  · intro ss
    cases ss with
    | nil => rfl
    | cons s rest =>
      show (groupAux s [s] rest).flatten = s :: rest
      rw [groupAux_flatten]
      rfl
  · intro ss g hg
    cases ss with
    | nil => simp [_group_related_sections] at hg
    | cons s rest => exact groupAux_ne_nil rest s [s] (by simp) g hg
  · intro ss g hg
    cases ss with
    | nil => simp [_group_related_sections] at hg
    | cons s rest => exact groupAux_inner_chain rest s [s] rfl (List.chain'_singleton s) g hg
  · intro ss
    cases ss with
    | nil => exact List.chain'_nil
    | cons s rest => exact groupAux_outer_chain rest s [s] (by simp) rfl

/-- C3 (witness): the no-inner-boundary part applied to the single
group formed by a level-1 then level-3 section without fences. -/
theorem C3_grouping_exact_witness :
    List.Chain' (fun a b => _is_major_boundary b (some a) = false)
      [⟨1, txt "X", txt "x"⟩, ⟨3, txt "Y", txt "y"⟩] :=
  C3_grouping_exact.2.2.2.1 [⟨1, txt "X", txt "x"⟩, ⟨3, txt "Y", txt "y"⟩]
    [⟨1, txt "X", txt "x"⟩, ⟨3, txt "Y", txt "y"⟩] (by decide)

/-- C4: a candidate chunk below `CHUNK_SIZE_MIN` is accepted exactly
when it is the document's only provisionally numbered chunk or its
text contains a fence marker; otherwise it is rejected with the
`Chunk too small` reason. -/
theorem C4_small_chunk_rule :
    ∀ (cfg : Config) (total : Nat) (c : Chunk),
      c.token_count < cfg.CHUNK_SIZE_MIN →
      ((((_validate_chunk cfg total c).1 = true) ↔ (total = 1 ∨ hasTicks c.content = true))
       ∧ (total ≠ 1 → hasTicks c.content = false →
           _validate_chunk cfg total c
             = (false, txt "Chunk too small (" ++ natText c.token_count ++ txt " tokens)"))) := by
  intro cfg total c h
  simp only [_validate_chunk]
  rw [if_pos h]
  by_cases ht : total = 1
  · simp [ht]
  · by_cases hc : hasTicks c.content
    · simp [ht, hc]
    · simp [ht, hc]

/-- C4 (witness): an undersized fence-free chunk in a two-chunk
document is rejected as too small. -/
theorem C4_small_chunk_rule_witness :
    (((_validate_chunk ragConfig 2 ⟨txt "tiny text", [], 3⟩).1 = true)
      ↔ (2 = 1 ∨ hasTicks (txt "tiny text") = true))
    ∧ (2 ≠ 1 → hasTicks (txt "tiny text") = false →
        _validate_chunk ragConfig 2 ⟨txt "tiny text", [], 3⟩
          = (false, txt "Chunk too small (" ++ natText 3 ++ txt " tokens)")) :=
  C4_small_chunk_rule ragConfig 2 ⟨txt "tiny text", [], 3⟩ (by decide)

/-- C5 (counterexample): `_split_large_group` performs no paragraph
fallback: a group of exactly one code-free section whose body estimate
(14) exceeds `CHUNK_SIZE_MAX` (12) is emitted through the pipeline as a
single chunk carrying the whole two-paragraph body unsplit. -/
theorem C5_no_paragraph_fallback_counterexample :
    create_chunks_prevalidation c5cfg List.length [c5sec]
      = [⟨txt "# T\n\naaaaaa\n\nbbbbbb", [txt "T"], 14⟩]
    ∧ c5cfg.CHUNK_SIZE_MAX < List.length c5sec.content
    ∧ containsSub (txt "aaaaaa\n\nbbbbbb") (txt "# T\n\naaaaaa\n\nbbbbbb") = true := by
  decide

/-- C5 (amended): in rag_processor the splitter has no paragraph
fallback — a group of exactly one code-free section whose estimate
exceeds `CHUNK_SIZE_TARGET` (in particular one exceeding
`CHUNK_SIZE_MAX`) is returned as a single chunk holding the entire
rendered body.  The paragraph-boundary splitting under the TARGET-based
flush rule exists only in the gk8 variant's `create_chunks`: there,
every emitted chunk is the stripped rendering of a header plus a run of
whole paragraphs, and the runs partition the paragraph list in order —
no paragraph is ever split, even one whose own estimate exceeds
TARGET.  The fallback is also evaluated on a concrete section whose
body exceeds that configuration's MAX: it splits exactly at the
paragraph boundary and keeps each paragraph whole. -/
theorem C5_oversized_single_section_amended :
    (∀ (cfg : Config) (tok : Text → Nat) (s : Section),
      hasTicks s.content = false →
      0 < cfg.CHUNK_SIZE_MIN →
      cfg.CHUNK_SIZE_TARGET < tok s.content →
      s.title ≠ txt "Content" →
      _split_large_group cfg tok [s]
        = [⟨stripWS (sectionRender s), [s.title], tok s.content⟩])
    ∧ (∀ (cfg : Config) (tok : Text → Nat) (title content : Text),
        title ≠ txt "Content" →
        gk8_split_large_section cfg tok title content
          = (gk8Runs cfg tok title (txt "# " ++ title ++ txt "\n\n") []
              (tok (txt "# " ++ title ++ txt "\n\n")) (splitParas content)).map
              (fun pr => ⟨stripWS (pr.1 ++ glueParas pr.2.1), [title], pr.2.2⟩)
        ∧ ((gk8Runs cfg tok title (txt "# " ++ title ++ txt "\n\n") []
              (tok (txt "# " ++ title ++ txt "\n\n")) (splitParas content)).map
              (fun pr => pr.2.1)).flatten = splitParas content)
    ∧ (gk8_split_large_section c5gcfg List.length (txt "T") (txt "aaaaaa\n\nbbbbbb")
        = [⟨txt "# T", [txt "T"], 5⟩, ⟨txt "# T\n\naaaaaa", [txt "T"], 13⟩,
           ⟨txt "# T\n\nbbbbbb", [txt "T"], 13⟩]
       ∧ splitParas (txt "aaaaaa\n\nbbbbbb") = [txt "aaaaaa", txt "bbbbbb"]
       ∧ c5gcfg.CHUNK_SIZE_MAX < List.length (txt "aaaaaa\n\nbbbbbb")) := by
  refine ⟨?_, ?_, ?_⟩
  swap
  · intro cfg tok title content hti
    constructor
    · have h0 : gk8_split_large_section cfg tok title content
          = gk8SplitAux cfg tok title (txt "# " ++ title ++ txt "\n\n")
              (tok (txt "# " ++ title ++ txt "\n\n")) (splitParas content) := by
        simp [gk8_split_large_section, hti]
      rw [h0]
      exact gk8SplitAux_runs cfg tok title (splitParas content)
        (txt "# " ++ title ++ txt "\n\n") [] (tok (txt "# " ++ title ++ txt "\n\n"))
        (txt "# " ++ title ++ txt "\n\n") (by simp [glueParas])
        (List.mem_append_left _ (List.mem_append_left _ (by decide)))
    · simpa using gk8Runs_flatten cfg tok title (splitParas content)
        (txt "# " ++ title ++ txt "\n\n") [] (tok (txt "# " ++ title ++ txt "\n\n"))
  · intro cfg tok s h1 h2 h3 h4
    have hmem : '#' ∈ sectionRender s := by
      unfold sectionRender
      rw [if_neg h4]
      exact List.mem_append_left _ (List.mem_append_left _
        (List.mem_append_left _ (by decide)))
    have hne : stripWS (sectionRender s) ≠ [] := stripWS_ne_nil (by decide) hmem
    have hcond1 : cfg.CHUNK_SIZE_TARGET < (Buf.mk [] [] 0).tokens + tok s.content := by
      simpa using h3
    have hcond2 : ¬ (cfg.CHUNK_SIZE_MIN ≤ (Buf.mk [] [] 0).tokens) := by
      simp only [Buf.mk.injEq]
      omega
    simp only [_split_large_group, splitLoop, processSection, h1, Bool.false_eq_true,
      if_false, processPlainSection]
    rw [if_pos hcond1, if_neg hcond2]
    simp only [List.nil_append, List.append_nil, Nat.zero_add]
    rw [if_neg hne]
    simp [mkChunk]
  · exact ⟨by decide, by decide, by decide⟩

/-- C5 (witness): the rag half of the amended theorem applied to the
concrete oversized single-section group of the counterexample. -/
theorem C5_oversized_single_section_amended_witness :
    _split_large_group c5cfg List.length [c5sec]
      = [⟨stripWS (sectionRender c5sec), [c5sec.title], List.length c5sec.content⟩] :=
  C5_oversized_single_section_amended.1 c5cfg List.length c5sec
    (by decide) (by decide) (by decide) (by decide)

/-- C6 (counterexample): the freshness invariant fails: in the
pipeline run on `c6doc` the first emitted chunk stores `token_count`
8 while its text has estimate 10 under the same character-count
estimator (the two blank-line separators inserted between the sections
were never counted). -/
theorem C6_token_count_drift_counterexample :
    ((create_chunks_prevalidation c6cfg List.length c6doc).map
        (fun ch => (ch.token_count, ch.content.length))).head? = some (8, 10)
    ∧ (8 : Nat) ≠ 10 := by decide

/-- C6 (amended): the stored count is not kept in sync with the text:
`_create_chunk_from_sections` stores the estimate of the text before
stripping (while storing the stripped text), and the splitter's
plain-text append increments the running count by the estimate of the
section body alone, excluding the inserted separators and headers. -/
theorem C6_token_count_amended :
    (∀ (tok : Text → Nat) (g : List Section),
      _create_chunk_from_sections tok g
        = ⟨stripWS (rawRender g), g.map Section.title, tok (rawRender g)⟩)
    ∧ (∀ (cfg : Config) (tok : Text → Nat) (s : Section) (b : Buf),
        hasTicks s.content = false →
        b.tokens + tok s.content ≤ cfg.CHUNK_SIZE_TARGET →
        processSection cfg tok s b
          = ([], ⟨b.content ++ sectionRender s, b.sections ++ [s.title],
              b.tokens + tok s.content⟩)) := by
  constructor
  · intro tok g
    unfold _create_chunk_from_sections
    rw [contentFold_eq_rawRender]
  · intro cfg tok s b h1 h2
    have hno : ¬ (cfg.CHUNK_SIZE_TARGET < b.tokens + tok s.content) := by omega
    simp only [processSection, h1, Bool.false_eq_true, if_false, processPlainSection]
    rw [if_neg hno]

/-- C6 (witness): the splitter's plain append on a small untitled
section adds the body estimate only. -/
theorem C6_token_count_amended_witness :
    processSection c6cfg List.length ⟨3, txt "Content", txt "abcd"⟩ ⟨[], [], 0⟩
      = ([], ⟨[] ++ sectionRender ⟨3, txt "Content", txt "abcd"⟩,
          [] ++ [txt "Content"], 0 + List.length (txt "abcd")⟩) :=
  C6_token_count_amended.2 c6cfg List.length ⟨3, txt "Content", txt "abcd"⟩ ⟨[], [], 0⟩
    (by decide) (by decide)

/-- C7 (counterexample): at `CHUNK_OVERLAP = 1` the claim's
round-based budget is `round(0.8) = 1` word, so on the buffer `a b` it
yields `b`; the code's floor-based budget is `1 * 4 // 5 = 0`, and
Python's `words[-0:]` slice is the whole list, so
`_get_overlap_content` returns `a b`. -/
theorem C7_overlap_round_counterexample :
    claimed_overlap 1 (txt "a b") = txt "b"
    ∧ _get_overlap_content 1 (txt "a b") = txt "a b"
    ∧ claimed_overlap 1 (txt "a b") ≠ _get_overlap_content 1 (txt "a b") := by decide

/-- C7 (amended): the overlap budget is `CHUNK_OVERLAP * 4 // 5`
(floor, not round); with a positive budget, a buffer with more words
than the budget contributes its trailing budget-many words re-joined
with single spaces, and a buffer with budget-many or fewer words is
carried forward whole; with budget zero (`CHUNK_OVERLAP = 1`) a
non-empty word list is re-joined whole. -/
theorem C7_overlap_formula_amended :
    ∀ (overlap : Nat) (content : Text),
      _get_overlap_content overlap content = overlap_amended overlap content := by
  intro ov content
  simp only [_get_overlap_content, overlap_amended]
  by_cases hk : ov * 4 / 5 = 0
  · rw [if_pos hk]
    cases hws : wordsOf content with
    | nil => simp [hk, hws]
    | cons w ws => simp [hk, hws]
  · simp only [if_neg hk]
    by_cases hlen : (wordsOf content).length ≤ ov * 4 / 5
    · have hnl : ¬ (ov * 4 / 5 < (wordsOf content).length) := by omega
      rw [if_neg hnl, if_pos hlen]
    · have hl : ov * 4 / 5 < (wordsOf content).length := by omega
      rw [if_pos hl, if_neg hlen]
      simp [List.rtake]

/-- C8 (counterexample): no configuration error is raised before
processing: the gk8 constructor accepts `chunk_size_target = 100`,
yielding `CHUNK_SIZE_MIN = 300 ≥ CHUNK_SIZE_TARGET = 100` without any
exception, and the rag constructor accepts `0` (ignoring it). -/
theorem C8_no_config_validation_counterexample :
    gk8InitConfig 100 = Except.ok ⟨300, 100, 1500, 100⟩
    ∧ (⟨300, 100, 1500, 100⟩ : Config).CHUNK_SIZE_TARGET
        ≤ (⟨300, 100, 1500, 100⟩ : Config).CHUNK_SIZE_MIN
    ∧ ragInitConfig 0 = Except.ok ragConfig :=
  ⟨rfl, by decide, rfl⟩

/-- C8 (amended): neither constructor validates the size constants or
raises; in rag_processor all four are hard-coded (positive and ordered
`MIN < TARGET < MAX`) and the caller's `chunk_size_target` argument is
ignored, while in the gk8 variant only `CHUNK_SIZE_TARGET` is
caller-supplied and unconstrained. -/
theorem C8_config_constants_amended :
    ∀ t : Nat,
      ragInitConfig t = Except.ok ragConfig
      ∧ gk8InitConfig t = Except.ok ⟨300, t, 1500, 100⟩
      ∧ 0 < ragConfig.CHUNK_SIZE_MIN
      ∧ ragConfig.CHUNK_SIZE_MIN < ragConfig.CHUNK_SIZE_TARGET
      ∧ ragConfig.CHUNK_SIZE_TARGET < ragConfig.CHUNK_SIZE_MAX
      ∧ 0 < ragConfig.CHUNK_OVERLAP :=
  fun _ => ⟨rfl, rfl, by decide, by decide, by decide, by decide⟩

/-- C9: after validation drops rejected chunks, the survivors are
re-numbered with `chunk_index` running contiguously from 1 and
`total_chunks` equal to the number of survivors on every chunk; and
every survivor is one of the pre-validation candidates unchanged
(its stripped text, its section titles and its token count) — rejected
chunks are dropped, never repaired or merged. -/
theorem C9_reindexing :
    ∀ (cfg : Config) (tok : Text → Nat) (sections : List Section),
      (create_chunks cfg tok sections).map FinalChunk.chunk_index
        = List.range' 1 (create_chunks cfg tok sections).length
      ∧ (create_chunks cfg tok sections).map FinalChunk.total_chunks
        = List.replicate (create_chunks cfg tok sections).length
            (create_chunks cfg tok sections).length
      ∧ (∀ fc ∈ create_chunks cfg tok sections,
          ∃ p ∈ create_chunks_prevalidation cfg tok sections,
            fc.content = stripWS p.content ∧ fc.sections = p.sections
            ∧ fc.token_count = p.token_count) := by
  intro cfg tok sections
  refine ⟨?_, ?_, ?_⟩
  · simp only [create_chunks, finalizeChunks]
    have h := renumberAux_spec
        (validatePass cfg (create_chunks_prevalidation cfg tok sections).length 0
          (create_chunks_prevalidation cfg tok sections)).length
        (validatePass cfg (create_chunks_prevalidation cfg tok sections).length 0
          (create_chunks_prevalidation cfg tok sections)) 0
    rw [h.1, h.2.2]
  · simp only [create_chunks, finalizeChunks]
    have h := renumberAux_spec
        (validatePass cfg (create_chunks_prevalidation cfg tok sections).length 0
          (create_chunks_prevalidation cfg tok sections)).length
        (validatePass cfg (create_chunks_prevalidation cfg tok sections).length 0
          (create_chunks_prevalidation cfg tok sections)) 0
    rw [h.2.1, h.2.2]
  · intro fc hfc
    simp only [create_chunks, finalizeChunks] at hfc
    rcases renumberAux_source _ _ 0 fc hfc with ⟨v, hv, hf1, hf2, hf3⟩
    rcases validatePass_source cfg _ _ 0 v hv with ⟨p, hp, hp1, hp2, hp3⟩
    exact ⟨p, hp, hf1.trans hp1, hf2.trans hp2, hf3.trans hp3⟩

/-- C9 (witness): the pass-through part applied to the single
validated chunk of a one-section document. -/
theorem C9_reindexing_witness :
    ∃ p ∈ create_chunks_prevalidation c2cfg List.length
        [⟨1, txt "W", List.replicate 25 'w'⟩],
      (⟨txt "# W" ++ txt "\n\n" ++ List.replicate 25 'w', [txt "W"], 32, 1, 1⟩
          : FinalChunk).content = stripWS p.content
      ∧ (⟨txt "# W" ++ txt "\n\n" ++ List.replicate 25 'w', [txt "W"], 32, 1, 1⟩
          : FinalChunk).sections = p.sections
      ∧ (⟨txt "# W" ++ txt "\n\n" ++ List.replicate 25 'w', [txt "W"], 32, 1, 1⟩
          : FinalChunk).token_count = p.token_count :=
  (C9_reindexing c2cfg List.length [⟨1, txt "W", List.replicate 25 'w'⟩]).2.2
    ⟨txt "# W" ++ txt "\n\n" ++ List.replicate 25 'w', [txt "W"], 32, 1, 1⟩ (by decide)

/-- C10: a chunk whose `token_count` exceeds `CHUNK_SIZE_MAX` is
rejected unconditionally — no sole-chunk or code-fence exception — and
a document whose only candidate chunk is oversized yields an empty
validated list. -/
theorem C10_oversize_always_rejected :
    ∀ (cfg : Config) (total : Nat) (c : Chunk),
      cfg.CHUNK_SIZE_MIN ≤ cfg.CHUNK_SIZE_MAX →
      cfg.CHUNK_SIZE_MAX < c.token_count →
      (_validate_chunk cfg total c).1 = false
      ∧ finalizeChunks cfg [c] = [] := by
  intro cfg total c h1 h2
  have hns : ¬ (c.token_count < cfg.CHUNK_SIZE_MIN) := by omega
  have hrej : ∀ t : Nat, ∀ cc : List Text,
      (_validate_chunk cfg t ⟨stripWS c.content, cc, c.token_count⟩).1 = false := by
    intro t cc
    simp only [_validate_chunk]
    rw [if_neg hns, if_pos h2]
  constructor
  · simp only [_validate_chunk]
    rw [if_neg hns, if_pos h2]
  · simp [finalizeChunks, validatePass, hrej, renumberAux]

/-- C10 (witness): an oversized chunk holding an indivisible fenced
block (1300 tokens against the rag constants) is rejected and the
sole-chunk document produces no validated chunks. -/
theorem C10_oversize_always_rejected_witness :
    (_validate_chunk ragConfig 1 ⟨fenceT ++ txt "big code" ++ fenceT, [txt "T"], 1300⟩).1
      = false
    ∧ finalizeChunks ragConfig [⟨fenceT ++ txt "big code" ++ fenceT, [txt "T"], 1300⟩] = [] :=
  C10_oversize_always_rejected ragConfig 1 ⟨fenceT ++ txt "big code" ++ fenceT, [txt "T"], 1300⟩
    (by decide) (by decide)

end Rag
